import Mathlib

/-!
Shallow embedding of the license-ledger core of dp-biotech-server
(src/server.js, first revision block, lines 1-348): the CSV codec
(dbToCsv and csvToDb), the GitHub-backed load and save steps, and the
Stripe-webhook activation transition.

Strings are Lean strings (lists of characters in this toolchain).  The
JavaScript string helpers the source relies on - split and join with a
one-character separator, trim, toUpperCase, and the truthiness of the
empty string - are given explicit executable definitions below, each
one modelling the corresponding JavaScript operation on the ASCII
range that the data of this program inhabits.
-/

namespace DpBiotech

/-- One character of JavaScript whitespace (the ASCII fragment relevant
to the trim calls of the source). -/
def isWSChar (c : Char) : Bool :=
  c == ' ' || c == '\t' || c == '\n' || c == '\r' || c == '\x0b' || c == '\x0c'

/-- Model of JS String.prototype.trim. -/
def jsTrim (s : String) : String :=
  ⟨((s.data.dropWhile isWSChar).reverse.dropWhile isWSChar).reverse⟩

/-- Model of JS String.prototype.toUpperCase on the ASCII range. -/
def jsToUpper (s : String) : String :=
  ⟨s.data.map Char.toUpper⟩

/-- JS `a || b` on strings: the empty string is the only falsy string. -/
def jsOr (a b : String) : String :=
  if a = "" then b else a

/-- Model of JS Array.prototype.join with a one-character separator. -/
def jsJoin (c : Char) (ls : List String) : String :=
  ⟨[c].intercalate (ls.map String.data)⟩

/-- Model of JS String.prototype.split with a one-character separator. -/
def jsSplit (c : Char) (s : String) : List String :=
  (s.data.splitOn c).map String.mk

/-- Drop one trailing carriage return: the CR of a CR-LF separator. -/
def stripCR (s : String) : String :=
  match s.data.getLast? with
  | some c => if c = '\r' then ⟨s.data.dropLast⟩ else s
  | none => s

/-- Helper for `splitLines`: the CR before each LF belongs to the
separator, so it is dropped from every piece except the last. -/
def splitLinesAux : List String → List String
  | [] => []
  | [x] => [x]
  | x :: y :: ys => stripCR x :: splitLinesAux (y :: ys)

/-- Model of `csv.split(/\r?\n/)` from csvToDb. -/
def splitLines (s : String) : List String :=
  splitLinesAux (jsSplit '\n' s)

/-- One value of the in-memory `licenseDatabase` object
(src/server.js line 315): status, the two date strings (null when
absent), and the feature array. -/
structure LicenseData where
  status : String
  activation_date : Option String
  expires : Option String
  activeFeatures : List String
deriving DecidableEq, Repr

/-- The in-memory database: a JS object modelled as an
insertion-ordered association list with unique keys. -/
abbrev Ledger := List (String × LicenseData)

def ledgerKeys (db : Ledger) : List String := db.map Prod.fst

/-- JS property read `licenseDatabase[serial]`. -/
def lookupLedger (s : String) : Ledger → Option LicenseData
  | [] => none
  | (k, v) :: rest => if k = s then some v else lookupLedger s rest

/-- JS property write `licenseDatabase[serial] = v`: overwrite in place
when the key exists, append otherwise. -/
def objInsert (k : String) (v : LicenseData) : Ledger → Ledger
  | [] => [(k, v)]
  | (k2, v2) :: rest =>
    if k2 = k then (k, v) :: rest else (k2, v2) :: objInsert k v rest

/-- The fixed column list of the codec (src/server.js line 71). -/
def CSV_HEADERS : List String :=
  ["serial", "status", "activation_date", "expiration_date",
   "feature_3d_models", "feature_parallax", "feature_image_addition", "feature_ndi"]

/-- The closed feature-identifier set of the data model. -/
def knownFeatures : List String :=
  ["3d-models", "parallax", "image-addition", "ndi"]

/-- The quoting test of dbToCsv: the regular expression `[",\n]`. -/
def needsQuoting (s : String) : Bool :=
  s.data.any (fun c => c == '"' || c == ',' || c == '\n')

/-- `v.replace(/"/g, '""')`. -/
def doubleQuotes (s : String) : String :=
  ⟨s.data.foldr (fun c acc => if c = '"' then '"' :: '"' :: acc else c :: acc) []⟩

/-- The field escape of dbToCsv (line 82): wrap in double quotes with
embedded quotes doubled whenever the field holds a comma, a double
quote or a newline. -/
def csvEscape (s : String) : String :=
  if needsQuoting s then "\"" ++ doubleQuotes s ++ "\"" else s

/-- The row array built by dbToCsv for one database entry
(lines 76-82). -/
def rowOf (serial : String) (d : LicenseData) : List String :=
  [serial,
   jsOr d.status "not-active",
   d.activation_date.getD "",
   d.expires.getD "",
   if d.activeFeatures.contains "3d-models" then "True" else "False",
   if d.activeFeatures.contains "parallax" then "True" else "False",
   if d.activeFeatures.contains "image-addition" then "True" else "False",
   if d.activeFeatures.contains "ndi" then "True" else "False"]

/-- One emitted CSV line: the escaped row joined with commas. -/
def lineOf (p : String × LicenseData) : String :=
  jsJoin ',' ((rowOf p.1 p.2).map csvEscape)

/-- dbToCsv, src/server.js lines 73-86. -/
def dbToCsv (db : Ledger) : String :=
  jsJoin '\n' (jsJoin ',' CSV_HEADERS :: db.map lineOf)

/-- The header index map `idx` of csvToDb (line 92):
`Object.fromEntries` keeps the last index for a repeated trimmed
column name, and reading a missing name gives undefined. -/
def idxLookup (header : List String) (name : String) : Option Nat :=
  ((header.enum.filter (fun p => jsTrim p.2 = name)).getLast?).map Prod.fst

/-- `cols[i] || ''` where the index may be undefined or out of range. -/
def getCol (cols : List String) : Option Nat → String
  | none => ""
  | some i => cols.getD i ""

/-- `(cols[idx.status] || 'not-active').trim()` (line 104). -/
def statusOf (cell : String) : String :=
  jsTrim (jsOr cell "not-active")

/-- `(cols[idx.x] || '').trim() || null` (lines 105-106). -/
def dateOf (cell : String) : Option String :=
  if jsTrim cell = "" then none else some (jsTrim cell)

/-- One iteration of the csvToDb row loop (lines 94-108): the record a
data line contributes, or none when its canonical serial is empty.
The header list stands for the `idx` map, looked up name by name. -/
def rowRecord (header : List String) (line : String) : Option (String × LicenseData) :=
  let cols := jsSplit ',' line
  let serial := jsTrim (jsToUpper (getCol cols (idxLookup header "serial")))
  if serial = "" then none
  else
    some (serial,
      { status := statusOf (getCol cols (idxLookup header "status")),
        activation_date := dateOf (getCol cols (idxLookup header "activation_date")),
        expires := dateOf (getCol cols (idxLookup header "expiration_date")),
        activeFeatures :=
          (if jsTrim (getCol cols (idxLookup header "feature_3d_models")) = "True"
            then ["3d-models"] else []) ++
          (if jsTrim (getCol cols (idxLookup header "feature_parallax")) = "True"
            then ["parallax"] else []) ++
          (if jsTrim (getCol cols (idxLookup header "feature_image_addition")) = "True"
            then ["image-addition"] else []) ++
          (if jsTrim (getCol cols (idxLookup header "feature_ndi")) = "True"
            then ["ndi"] else []) })

/-- The loop body of csvToDb: skip the line or write its record. -/
def applyRow (header : List String) (db : Ledger) (line : String) : Ledger :=
  match rowRecord header line with
  | none => db
  | some (s, d) => objInsert s d db

/-- csvToDb, src/server.js lines 88-111: split into lines, drop empty
lines, read the first line as the header, fold the rest into an
initially empty object. -/
def csvToDb (csv : String) : Ledger :=
  match (splitLines csv).filter (fun s => s ≠ "") with
  | [] => []
  | headerLine :: rows => rows.foldl (applyRow (jsSplit ',' headerLine)) []

/-- The `idx.serial` entry of the header of a CSV text, when the text
has a first nonempty line at all. -/
def headSerialIdx (csv : String) : Option Nat :=
  match (splitLines csv).filter (fun s => s ≠ "") with
  | [] => none
  | headerLine :: _ => idxLookup (jsSplit ',' headerLine) "serial"

/-- The records the data lines of a CSV text contribute, in order. -/
def decodedRows (csv : String) : List (String × LicenseData) :=
  match (splitLines csv).filter (fun s => s ≠ "") with
  | [] => []
  | headerLine :: rows => rows.filterMap (rowRecord (jsSplit ',' headerLine))

/-- The record of the last row keyed by a given serial. -/
def lastMatch (s : String) : List (String × LicenseData) → Option LicenseData
  | [] => none
  | (k, d) :: rest =>
    match lastMatch s rest with
    | some d2 => some d2
    | none => if k = s then some d else none

/-- A calendar date as the webhook reads it from the process clock:
getFullYear, getMonth() + 1, getDate(). -/
structure JsDate where
  year : Nat
  month : Nat
  day : Nat
deriving DecidableEq, Repr

def isLeap (y : Nat) : Bool :=
  (y % 4 == 0 && y % 100 != 0) || y % 400 == 0

/-- `new Date(today)` followed by `setFullYear(year + 1)` (lines
323-324).  JS date normalization makes Feb 29 of a non-leap target
year roll over to Mar 1; every other valid date keeps its month and
day. -/
def addOneYear (dt : JsDate) : JsDate :=
  if dt.month = 2 ∧ dt.day = 29 ∧ isLeap (dt.year + 1) = false then
    ⟨dt.year + 1, 3, 1⟩
  else
    ⟨dt.year + 1, dt.month, dt.day⟩

/-- `String(n).padStart(2, '0')`. -/
def pad2 (n : Nat) : String :=
  if n < 10 then "0" ++ toString n else toString n

/-- The date template of the webhook handler (line 322). -/
def formatDate (dt : JsDate) : String :=
  toString dt.year ++ "-" ++ pad2 dt.month ++ "-" ++ pad2 dt.day

/-- Set.prototype.add in insertion order: append when absent. -/
def addIfAbsent (l : List String) (x : String) : List String :=
  if x ∈ l then l else l ++ [x]

/-- Lines 329-331: `const set = new Set(prev);
featuresPurchased.forEach(f => set.add(f)); Array.from(set)`. -/
def mergeFeatures (prev purchased : List String) : List String :=
  purchased.foldl addIfAbsent (prev.foldl addIfAbsent [])

/-- The default record synthesized for an unknown serial (line 315). -/
def defaultRecord : LicenseData :=
  { status := "not-active", activation_date := none, expires := none,
    activeFeatures := [] }

/-- The body of `if (serial) { ... }` in the webhook handler
(lines 314-331): create the record when missing, then overwrite
status, both dates, and the merged feature array. -/
def applyActivation (today : JsDate) (serial : String) (feats : List String)
    (db : Ledger) : Ledger :=
  let prev := (lookupLedger serial db).getD defaultRecord
  objInsert serial
    { status := "valid",
      activation_date := some (formatDate today),
      expires := some (formatDate (addOneYear today)),
      activeFeatures := mergeFeatures prev.activeFeatures feats } db

/-- The activation transition: canonicalize the serial with
toUpperCase and trim (line 308), and change nothing when the canonical
serial is empty. -/
def activate (today : JsDate) (rawSerial : String) (feats : List String)
    (db : Ledger) : Ledger :=
  let serial := jsTrim (jsToUpper rawSerial)
  if serial = "" then db else applyActivation today serial feats db

/-- List-level test that one character list starts with another. -/
def isPrefixList : List Char → List Char → Bool
  | [], _ => true
  | _ :: _, [] => false
  | a :: as, b :: bs => a == b && isPrefixList as bs

def strStartsWith (s p : String) : Bool :=
  isPrefixList p.data s.data

/-- The replace call of line 310: drop one leading occurrence of the
feature tag `feature-` from an id. -/
def stripFeatureTag (s : String) : String :=
  if strStartsWith s "feature-" then ⟨s.data.drop 8⟩ else s

/-- Line 309-310: `(metadata.features_purchased || '').split(',')
.map(trim).filter(Boolean).map(strip the feature tag)`. -/
def parseFeatures (meta : String) : List String :=
  (((jsSplit ',' meta).map jsTrim).filter (fun s => s ≠ "")).map stripFeatureTag

/-- The mutable process state: the in-memory ledger and the sha of the
last observed revision of the remote CSV (`currentGitSha`). -/
structure ServerState where
  db : Ledger
  sha : Option String
deriving DecidableEq, Repr

/-- Outcome of the GitHub PUT behind saveDatabaseToGitHub: success
carries `result.content?.sha` (possibly absent); a version-mismatch
rejection or a transport failure makes githubPutFile throw. -/
inductive CommitResult where
  | ok (newSha : Option String)
  | conflict
  | transientError
deriving DecidableEq, Repr

/-- saveDatabaseToGitHub (lines 134-143) as a state transition.  The
encoded CSV of the current ledger is what gets sent; for the state
only the sha matters: on success `currentGitSha` becomes
`result.content?.sha || currentGitSha`, and a throw (conflict or
transport failure) leaves the state untouched - the caller catches it
and only logs. -/
def saveDatabaseToGitHub (outcome : CommitResult) (st : ServerState) : ServerState :=
  match outcome with
  | .ok newSha =>
    { st with sha := match newSha with | some s => some s | none => st.sha }
  | .conflict => st
  | .transientError => st

/-- What the remote fetch of the CSV can report. -/
inductive FetchResult where
  | notFound
  | transientError (msg : String)
  | ok (content : String) (sha : String)

/-- githubGetFile (lines 43-54): a 404 yields null, any other failure
throws, success yields the decoded content and its sha. -/
def githubGetFile (r : FetchResult) : Except String (Option (String × String)) :=
  match r with
  | .notFound => .ok none
  | .transientError m => .error m
  | .ok c s => .ok (some (c, s))

/-- loadDatabaseFromGitHub (lines 114-132): missing file or any thrown
error both fall back to an empty database with no sha; success decodes
the CSV and records the sha. -/
def loadDatabaseFromGitHub (r : FetchResult) : ServerState :=
  match githubGetFile r with
  | .error _ => ⟨[], none⟩
  | .ok none => ⟨[], none⟩
  | .ok (some (content, sha)) => ⟨csvToDb content, some sha⟩

/-- A webhook delivery after signature checking: none when
constructEvent threw, otherwise the event, carrying the session
metadata when it is a completed checkout. -/
inductive StripeEvent where
  | completed (serialMeta : String) (featuresMeta : String)
  | other

/-- What the handler sends back: sendStatus(400) on a bad signature,
otherwise the `{received: true}` acknowledgement. -/
inductive WebhookResponse where
  | badSignature
  | ack
deriving DecidableEq, Repr

/-- The /stripe-webhook handler (lines 297-342), with the commit
outcome of the GitHub PUT supplied as an oracle input. -/
def handleStripeWebhook (today : JsDate) (ev : Option StripeEvent)
    (outcome : CommitResult) (st : ServerState) : ServerState × WebhookResponse :=
  match ev with
  | none => (st, .badSignature)
  | some .other => (st, .ack)
  | some (.completed serialMeta featuresMeta) =>
    let serial := jsTrim (jsToUpper serialMeta)
    let feats := parseFeatures featuresMeta
    if serial = "" then (st, .ack)
    else
      (saveDatabaseToGitHub outcome { st with db := applyActivation today serial feats st.db },
       .ack)

/-- The keys of the server-trusted PRICES table (lines 148-156). -/
def PRICE_ids : List String :=
  ["dp-mini-base", "dp-pro-base", "license-base",
   "feature-3d-models", "feature-parallax", "feature-image-addition", "feature-ndi"]

/-- calculateItemPrice (lines 175-225) returns without throwing only
when the item id has a base price or has one of the two
configurable-product name shapes; any other id aborts checkout-session
creation, so only such ids can reach the session metadata. -/
def cartIdAccepted (id : String) : Prop :=
  id ∈ PRICE_ids ∨ strStartsWith id "dp-mini-" = true ∨ strStartsWith id "dppro-" = true

/-- `metadata.features_purchased` as /create-checkout-session builds it
(lines 260-261): the cart ids with the feature tag, joined by commas. -/
def featuresMetadata (cartIds : List String) : String :=
  jsJoin ',' (cartIds.filter (fun i => strStartsWith i "feature-"))

/-- Ledger states a process can reach: the empty initial object, a
load of any remote CSV, and webhook activations whose purchased
features come through metadata written by the checkout endpoint from a
cart every item of which passed the price lookup. -/
inductive Reachable : Ledger → Prop where
  | empty : Reachable []
  | loaded (csv : String) : Reachable (csvToDb csv)
  | activated (db : Ledger) (today : JsDate) (rawSerial : String)
      (cartIds : List String)
      (hcart : ∀ i ∈ cartIds, cartIdAccepted i) (hdb : Reachable db) :
      Reachable (activate today rawSerial (parseFeatures (featuresMetadata cartIds)) db)

/-- Fields free of the characters that the codec treats specially. -/
@[reducible] def plainChars (s : String) : Prop :=
  ∀ c ∈ s.data, ¬(c = ',' ∨ c = '"' ∨ c = '\n' ∨ c = '\r')

/-- A serial already in canonical form that the naive column split can
carry: nonempty, fixed under toUpperCase and trim, no special
characters. -/
@[reducible] def wfSerial (s : String) : Prop :=
  s ≠ "" ∧ jsToUpper s = s ∧ jsTrim s = s ∧ plainChars s

/-- A nonempty trim-fixed field without special characters. -/
@[reducible] def wfToken (s : String) : Prop :=
  s ≠ "" ∧ jsTrim s = s ∧ plainChars s

@[reducible] def wfDate : Option String → Prop
  | none => True
  | some s => wfToken s

/-- A record the codec can carry: well-formed status and dates, and a
feature array equal to the canonical-order selection of the known
features it contains. -/
@[reducible] def wfRecord (d : LicenseData) : Prop :=
  wfToken d.status ∧ wfDate d.activation_date ∧ wfDate d.expires ∧
  d.activeFeatures = knownFeatures.filter (fun f => d.activeFeatures.contains f)

/-- A database object: unique keys, all entries well-formed. -/
@[reducible] def wfLedger (db : Ledger) : Prop :=
  (ledgerKeys db).Nodup ∧ ∀ p ∈ db, wfSerial p.1 ∧ wfRecord p.2

/-- The hypothesis of the round-trip claim as written: no raw newline
anywhere in the stored fields. -/
@[reducible] def noNewlines (s : String) : Prop := '\n' ∉ s.data

@[reducible] def noNewlinesOpt : Option String → Prop
  | none => True
  | some s => noNewlines s

@[reducible] def noNewlineRecord (d : LicenseData) : Prop :=
  noNewlines d.status ∧ noNewlinesOpt d.activation_date ∧
  noNewlinesOpt d.expires ∧ ∀ f ∈ d.activeFeatures, noNewlines f

@[reducible] def noNewlineLedger (db : Ledger) : Prop :=
  ∀ p ∈ db, noNewlines p.1 ∧ noNewlineRecord p.2

instance wfDateDecidable : (o : Option String) → Decidable (wfDate o)
  | none => isTrue trivial
  | some s => inferInstanceAs (Decidable (s ≠ "" ∧ jsTrim s = s ∧ plainChars s))

instance wfRecordDecidable (d : LicenseData) : Decidable (wfRecord d) :=
  inferInstanceAs (Decidable (_ ∧ _ ∧ _ ∧ _))

instance wfLedgerDecidable (db : Ledger) : Decidable (wfLedger db) :=
  inferInstanceAs (Decidable (_ ∧ _))

instance noNewlinesOptDecidable : (o : Option String) → Decidable (noNewlinesOpt o)
  | none => isTrue trivial
  | some s => inferInstanceAs (Decidable (noNewlines s))

instance noNewlineRecordDecidable (d : LicenseData) : Decidable (noNewlineRecord d) :=
  inferInstanceAs (Decidable (_ ∧ _ ∧ _ ∧ _))

instance noNewlineLedgerDecidable (db : Ledger) : Decidable (noNewlineLedger db) :=
  inferInstanceAs (Decidable (∀ p ∈ db, _ ∧ _))

/-! ## Basic lemmas about the ledger object operations -/

theorem lookup_objInsert (s k : String) (v : LicenseData) (db : Ledger) :
    lookupLedger s (objInsert k v db) =
      if k = s then some v else lookupLedger s db := by
  induction db with
  | nil => simp [objInsert, lookupLedger]
  | cons p rest ih =>
    obtain ⟨k2, v2⟩ := p
    by_cases h : k2 = k
    · subst h
      simp only [objInsert, if_pos rfl, lookupLedger]
      by_cases h2 : k2 = s <;> simp [h2]
    · simp only [objInsert, if_neg h, lookupLedger, ih]
      by_cases h2 : k2 = s <;> by_cases h3 : k = s <;> simp_all

theorem ledgerKeys_objInsert (k : String) (v : LicenseData) (db : Ledger) :
    ledgerKeys (objInsert k v db) =
      if k ∈ ledgerKeys db then ledgerKeys db else ledgerKeys db ++ [k] := by
  induction db with
  | nil => simp [objInsert, ledgerKeys]
  | cons p rest ih =>
    obtain ⟨k2, v2⟩ := p
    by_cases h : k2 = k
    · subst h
      simp [objInsert, ledgerKeys]
    · simp only [objInsert, if_neg h, ledgerKeys, List.map_cons] at ih ⊢
      rw [ih]
      have hne : ¬k = k2 := fun he => h he.symm
      by_cases hm : k ∈ List.map Prod.fst rest <;>
        simp [List.mem_cons, hne, hm]

theorem nodup_keys_objInsert {k : String} {v : LicenseData} {db : Ledger}
    (h : (ledgerKeys db).Nodup) : (ledgerKeys (objInsert k v db)).Nodup := by
  rw [ledgerKeys_objInsert]
  by_cases hm : k ∈ ledgerKeys db
  · simpa [hm] using h
  · simp [hm, List.nodup_append, h]

theorem objInsert_append {k : String} {v : LicenseData} {db : Ledger}
    (h : k ∉ ledgerKeys db) : objInsert k v db = db ++ [(k, v)] := by
  induction db with
  | nil => simp [objInsert]
  | cons p rest ih =>
    obtain ⟨k2, v2⟩ := p
    have h1 : ¬k2 = k := by
      intro he
      exact h (by simp [ledgerKeys, he])
    have h2 : k ∉ ledgerKeys rest := by
      intro hm
      exact h (by simp [ledgerKeys] at hm ⊢; exact Or.inr hm)
    simp [objInsert, if_neg h1, ih h2]

/-! ## Basic lemmas about the feature-set merge -/

theorem mem_addIfAbsent {l : List String} {x y : String} :
    y ∈ addIfAbsent l x ↔ y ∈ l ∨ y = x := by
  by_cases hx : x ∈ l
  · simp only [addIfAbsent, if_pos hx]
    exact ⟨Or.inl, fun h => h.elim id (fun he => he ▸ hx)⟩
  · simp [addIfAbsent, if_neg hx]

theorem mem_foldl_addIfAbsent {l : List String} :
    ∀ {acc x}, x ∈ l.foldl addIfAbsent acc ↔ x ∈ acc ∨ x ∈ l := by
  induction l with
  | nil => simp
  | cons a t ih =>
    intro acc x
    rw [List.foldl_cons, ih, mem_addIfAbsent, List.mem_cons]
    tauto

theorem mem_mergeFeatures {prev purchased : List String} {f : String} :
    f ∈ mergeFeatures prev purchased ↔ f ∈ prev ∨ f ∈ purchased := by
  unfold mergeFeatures
  rw [mem_foldl_addIfAbsent, mem_foldl_addIfAbsent]
  simp only [List.not_mem_nil, false_or]

theorem nodup_addIfAbsent {l : List String} {x : String} (h : l.Nodup) :
    (addIfAbsent l x).Nodup := by
  unfold addIfAbsent
  by_cases hx : x ∈ l
  · simpa [hx]
  · simp [hx, List.nodup_append, h]

theorem nodup_foldl_addIfAbsent {l : List String} :
    ∀ {acc}, acc.Nodup → (l.foldl addIfAbsent acc).Nodup := by
  induction l with
  | nil => exact fun h => h
  | cons a t ih =>
    intro acc h
    rw [List.foldl_cons]
    exact ih (nodup_addIfAbsent h)

theorem nodup_mergeFeatures (prev purchased : List String) :
    (mergeFeatures prev purchased).Nodup :=
  nodup_foldl_addIfAbsent (nodup_foldl_addIfAbsent List.nodup_nil)

theorem foldl_addIfAbsent_of_nodup {l acc : List String}
    (h : (acc ++ l).Nodup) : l.foldl addIfAbsent acc = acc ++ l := by
  induction l generalizing acc with
  | nil => simp
  | cons x xs ih =>
    have hx : x ∉ acc := by
      rw [List.nodup_append] at h
      exact fun hm => h.2.2 hm (List.mem_cons_self x xs)
    rw [List.foldl_cons, addIfAbsent, if_neg hx, ih]
    · simp
    · simpa using h

theorem mergeFeatures_noop {prev purchased : List String}
    (hnd : prev.Nodup) (hsub : ∀ f ∈ purchased, f ∈ prev) :
    mergeFeatures prev purchased = prev := by
  unfold mergeFeatures
  have h1 : prev.foldl addIfAbsent [] = prev := by
    have := @foldl_addIfAbsent_of_nodup prev [] (by simpa using hnd)
    simpa using this
  rw [h1]
  induction purchased with
  | nil => rfl
  | cons f fs ih =>
    rw [List.foldl_cons, addIfAbsent, if_pos (hsub f (List.mem_cons_self f fs))]
    exact ih (fun g hg => hsub g (List.mem_cons_of_mem f hg))

/-! ## C7: fail-open load -/

/-- C7: `load()` never throws to its caller: a NotFound fetch yields an
empty ledger and no version token, and a transport failure likewise
falls back to an empty ledger with no token. -/
theorem c7_load_fail_open :
    loadDatabaseFromGitHub .notFound = ⟨[], none⟩ ∧
    ∀ msg, loadDatabaseFromGitHub (.transientError msg) = ⟨[], none⟩ :=
  ⟨rfl, fun _ => rfl⟩

/-! ## C4: the webhook acknowledges once the mutation is applied -/

/-- C4: for every verified purchase-completion event the handler
responds with the received acknowledgement, whatever the outcome of
the remote commit. -/
theorem c4_webhook_acks_regardless_of_commit (today : JsDate)
    (serialMeta featuresMeta : String) (outcome : CommitResult) (st : ServerState) :
    (handleStripeWebhook today (some (.completed serialMeta featuresMeta)) outcome st).2 =
      .ack := by
  simp only [handleStripeWebhook]
  by_cases hs : jsTrim (jsToUpper serialMeta) = "" <;> simp [hs]

/-! ## C8: an empty canonical serial is acknowledged without any change -/

/-- C8: when the serial canonicalizes to the empty string the ledger
and the stored version token are left untouched and the event is still
acknowledged. -/
theorem c8_empty_serial_is_acked_noop (today : JsDate)
    (rawSerial featuresMeta : String) (outcome : CommitResult) (st : ServerState)
    (h : jsTrim (jsToUpper rawSerial) = "") :
    handleStripeWebhook today (some (.completed rawSerial featuresMeta)) outcome st =
      (st, .ack) := by
  simp [handleStripeWebhook, h]

theorem c8_empty_serial_is_acked_noop_witness :
    handleStripeWebhook ⟨2026, 1, 1⟩ (some (.completed "   " "feature-ndi")) .conflict
        ⟨[], none⟩ = (⟨[], none⟩, .ack) :=
  c8_empty_serial_is_acked_noop ⟨2026, 1, 1⟩ "   " "feature-ndi" .conflict ⟨[], none⟩
    (by decide)

/-! ## C3: a failed commit leaves the mutated in-memory ledger as-is -/

/-- C3: when the commit of the encoded ledger fails (Conflict or
TransientIOError) the in-memory state is exactly the mutated ledger
with the old version token - no retry, no rollback - so a query for
any serial sees the latest locally applied record. -/
theorem c3_commit_failure_keeps_ledger (today : JsDate)
    (serialMeta featuresMeta : String) (outcome : CommitResult) (st : ServerState)
    (h : outcome = CommitResult.conflict ∨ outcome = CommitResult.transientError) :
    (handleStripeWebhook today (some (.completed serialMeta featuresMeta)) outcome st).1 =
      ⟨activate today serialMeta (parseFeatures featuresMeta) st.db, st.sha⟩ ∧
    ∀ q, lookupLedger q
        (handleStripeWebhook today (some (.completed serialMeta featuresMeta)) outcome st).1.db =
      lookupLedger q (activate today serialMeta (parseFeatures featuresMeta) st.db) := by
  have hsave : ∀ s, saveDatabaseToGitHub outcome s = s := by
    rcases h with rfl | rfl <;> exact fun _ => rfl
  have hmain : (handleStripeWebhook today (some (.completed serialMeta featuresMeta))
      outcome st).1 =
      ⟨activate today serialMeta (parseFeatures featuresMeta) st.db, st.sha⟩ := by
    simp only [handleStripeWebhook, activate]
    by_cases hs : jsTrim (jsToUpper serialMeta) = ""
    · simp [hs]
    · simp [hs, hsave]
  exact ⟨hmain, fun q => by rw [hmain]⟩

theorem c3_commit_failure_keeps_ledger_witness :
    (handleStripeWebhook ⟨2026, 1, 1⟩ (some (.completed "XZ77" "feature-ndi")) .conflict
        ⟨[], some "sha0"⟩).1 =
      ⟨activate ⟨2026, 1, 1⟩ "XZ77" (parseFeatures "feature-ndi") [], some "sha0"⟩ ∧
    ∀ q, lookupLedger q
        (handleStripeWebhook ⟨2026, 1, 1⟩ (some (.completed "XZ77" "feature-ndi")) .conflict
          ⟨[], some "sha0"⟩).1.db =
      lookupLedger q (activate ⟨2026, 1, 1⟩ "XZ77" (parseFeatures "feature-ndi") []) :=
  c3_commit_failure_keeps_ledger ⟨2026, 1, 1⟩ "XZ77" "feature-ndi" .conflict
    ⟨[], some "sha0"⟩ (Or.inl rfl)

/-! ## C2: the activation transition -/

/-- C2 as written is refuted by a leap-day activation: activating on
2024-02-29 stores the expiration date 2025-03-01, whose month and day
are not those of the activation date. -/
theorem c2_activation_leap_day_counterexample :
    lookupLedger "XZ77" (activate ⟨2024, 2, 29⟩ "XZ77" [] []) =
      some { status := "valid", activation_date := some "2024-02-29",
             expires := some "2025-03-01", activeFeatures := [] } ∧
    ("2025-03-01" : String) ≠ "2025-02-29" := by
  constructor
  · decide
  · decide

/-- C2 (amended): for a nonempty canonical serial the activation
transition stores a record with status valid, activation date equal to
the date read from the process clock, expiration date equal to the
activation date with the year incremented - month and day preserved
except that Feb 29 of a leap year maps to Mar 1 when the next year is
not a leap year - and a feature list whose members are exactly the
union of the prior features (empty when the serial was absent) with
the purchased features. -/
theorem c2_activation_transition (today : JsDate) (serial : String)
    (feats : List String) (db : Ledger)
    (hcanon : jsTrim (jsToUpper serial) = serial) (hne : serial ≠ "") :
    lookupLedger serial (activate today serial feats db) =
      some { status := "valid",
             activation_date := some (formatDate today),
             expires := some (formatDate (addOneYear today)),
             activeFeatures := mergeFeatures
               ((lookupLedger serial db).getD defaultRecord).activeFeatures feats } ∧
    (∀ f, f ∈ mergeFeatures
        ((lookupLedger serial db).getD defaultRecord).activeFeatures feats ↔
      f ∈ ((lookupLedger serial db).getD defaultRecord).activeFeatures ∨ f ∈ feats) ∧
    (¬(today.month = 2 ∧ today.day = 29 ∧ isLeap (today.year + 1) = false) →
      addOneYear today = ⟨today.year + 1, today.month, today.day⟩) := by
  refine ⟨?_, fun f => mem_mergeFeatures, fun h => by rw [addOneYear, if_neg h]⟩
  simp only [activate, hcanon, if_neg hne, applyActivation]
  rw [lookup_objInsert, if_pos rfl]

theorem c2_activation_transition_witness :
    lookupLedger "XZ77" (activate ⟨2026, 10, 11⟩ "XZ77" ["3d-models"] []) =
      some { status := "valid",
             activation_date := some (formatDate ⟨2026, 10, 11⟩),
             expires := some (formatDate (addOneYear ⟨2026, 10, 11⟩)),
             activeFeatures := mergeFeatures
               ((lookupLedger "XZ77" ([] : Ledger)).getD defaultRecord).activeFeatures
               ["3d-models"] } ∧
    (∀ f, f ∈ mergeFeatures
        ((lookupLedger "XZ77" ([] : Ledger)).getD defaultRecord).activeFeatures
        ["3d-models"] ↔
      f ∈ ((lookupLedger "XZ77" ([] : Ledger)).getD defaultRecord).activeFeatures ∨
        f ∈ ["3d-models"]) ∧
    (¬((⟨2026, 10, 11⟩ : JsDate).month = 2 ∧ (⟨2026, 10, 11⟩ : JsDate).day = 29 ∧
        isLeap ((⟨2026, 10, 11⟩ : JsDate).year + 1) = false) →
      addOneYear ⟨2026, 10, 11⟩ =
        ⟨(⟨2026, 10, 11⟩ : JsDate).year + 1, (⟨2026, 10, 11⟩ : JsDate).month,
         (⟨2026, 10, 11⟩ : JsDate).day⟩) :=
  c2_activation_transition ⟨2026, 10, 11⟩ "XZ77" ["3d-models"] [] (by decide) (by decide)

/-! ## C9: the status default of the decoder -/

/-- C9 as written is refuted by a whitespace-only status field: the
decoded record stores the empty string, not the not-active token. -/
theorem c9_whitespace_status_counterexample :
    csvToDb "serial,status\nABC, " =
      [("ABC", { status := "", activation_date := none, expires := none,
                 activeFeatures := [] })] ∧
    ("" : String) ≠ "not-active" := by
  constructor
  · decide
  · decide

/-- C9 (amended): the decoded status is the not-active token exactly
when the status cell is missing or empty; a nonempty cell - including
a whitespace-only one - decodes to its trimmed value, so a
whitespace-only cell yields the empty string. -/
theorem c9_status_default (cell : String) :
    statusOf cell = if cell = "" then "not-active" else jsTrim cell := by
  by_cases h : cell = ""
  · simp only [statusOf, jsOr, if_pos h, h]
    decide
  · simp only [statusOf, jsOr, if_neg h]

/-! ## C6: fail-soft decoding without a usable header -/

theorem rowRecord_none_of_no_serial {header : List String} (line : String)
    (h : idxLookup header "serial" = none) :
    rowRecord header line = none := by
  simp only [rowRecord, h, getCol]
  rfl

theorem foldl_applyRow_no_serial {header : List String}
    (h : idxLookup header "serial" = none) :
    ∀ rows : List String, rows.foldl (applyRow header) [] = []
  | [] => rfl
  | r :: rs => by
    rw [List.foldl_cons]
    have hr : applyRow header [] r = [] := by
      unfold applyRow
      rw [rowRecord_none_of_no_serial r h]
    rw [hr]
    exact foldl_applyRow_no_serial h rs

/-- C6: decoding an empty text, or any text whose header line does not
provide a serial column, yields the empty ledger instead of failing. -/
theorem c6_decode_fail_soft :
    csvToDb "" = [] ∧ csvToDb "not,a,valid,header" = [] ∧
    ∀ csv, headSerialIdx csv = none → csvToDb csv = [] := by
  refine ⟨by decide, by decide, fun csv h => ?_⟩
  unfold csvToDb
  unfold headSerialIdx at h
  cases hl : (splitLines csv).filter (fun s => s ≠ "") with
  | nil => simp [hl]
  | cons hd rows =>
    rw [hl] at h
    simp only [hl]
    exact foldl_applyRow_no_serial h rows

theorem c6_decode_fail_soft_witness :
    csvToDb "not,a,valid,header\nFOO,bar" = [] :=
  c6_decode_fail_soft.2.2 "not,a,valid,header\nFOO,bar" (by decide)

/-! ## C10: duplicate serials, last row wins -/

theorem lookup_foldl_applyRow (header : List String) (s : String) :
    ∀ (rows : List String) (acc : Ledger),
      lookupLedger s (rows.foldl (applyRow header) acc) =
        match lastMatch s (rows.filterMap (rowRecord header)) with
        | some d => some d
        | none => lookupLedger s acc := by
  intro rows
  induction rows with
  | nil => intro acc; rfl
  | cons r rs ih =>
    intro acc
    rw [List.foldl_cons, List.filterMap_cons]
    cases hr : rowRecord header r with
    | none =>
      simp only [applyRow, hr]
      exact ih acc
    | some p =>
      obtain ⟨k, d⟩ := p
      simp only [applyRow, hr]
      rw [ih (objInsert k d acc)]
      cases hm : lastMatch s (rs.filterMap (rowRecord header)) with
      | some d2 => simp [lastMatch, hm]
      | none =>
        simp only [lastMatch, hm]
        rw [lookup_objInsert]
        by_cases hk : k = s <;> simp [hk]

theorem nodup_keys_foldl_applyRow (header : List String) :
    ∀ (rows : List String) (acc : Ledger), (ledgerKeys acc).Nodup →
      (ledgerKeys (rows.foldl (applyRow header) acc)).Nodup := by
  intro rows
  induction rows with
  | nil => exact fun acc h => h
  | cons r rs ih =>
    intro acc h
    rw [List.foldl_cons]
    refine ih _ ?_
    unfold applyRow
    cases rowRecord header r with
    | none => exact h
    | some p => exact nodup_keys_objInsert h

/-- C10: for every input text the decoded ledger has at most one
record per canonical serial, and looking a serial up yields exactly
the record contributed by the last data row that canonicalizes to that
serial (later rows overwrite earlier ones). -/
theorem c10_duplicate_serials_last_wins (csv : String) (s : String) :
    (ledgerKeys (csvToDb csv)).Nodup ∧
    lookupLedger s (csvToDb csv) = lastMatch s (decodedRows csv) := by
  unfold csvToDb decodedRows
  cases hl : (splitLines csv).filter (fun x => x ≠ "") with
  | nil => exact ⟨List.nodup_nil, rfl⟩
  | cons hd rows =>
    refine ⟨nodup_keys_foldl_applyRow _ rows [] List.nodup_nil, ?_⟩
    rw [lookup_foldl_applyRow]
    cases lastMatch s (rows.filterMap (rowRecord (jsSplit ',' hd))) <;> rfl

/-! ## C5: the feature-set invariant over reachable ledgers -/

theorem jsSplit_jsJoin {c : Char} {ls : List String} (hne : ls ≠ [])
    (h : ∀ s ∈ ls, c ∉ s.data) : jsSplit c (jsJoin c ls) = ls := by
  unfold jsSplit jsJoin
  have hdata : (String.mk ([c].intercalate (ls.map String.data))).data =
      [c].intercalate (ls.map String.data) := rfl
  rw [hdata, List.splitOn_intercalate (ls.map String.data) c ?hx ?hls]
  · rw [List.map_map]
    have hid : ∀ s ∈ ls, (String.mk ∘ String.data) s = id s := fun s _ => rfl
    rw [List.map_congr_left hid, List.map_id]
  case hx =>
    intro l hl
    rw [List.mem_map] at hl
    obtain ⟨s, hs, rfl⟩ := hl
    exact h s hs
  case hls =>
    simpa using hne

theorem isPrefixList_head {a b c : Char} {as bs cs : List Char}
    (h1 : isPrefixList (a :: as) (c :: cs) = true)
    (h2 : isPrefixList (b :: bs) (c :: cs) = true) : a = b := by
  simp only [isPrefixList, Bool.and_eq_true, beq_iff_eq] at h1 h2
  rw [h1.1, h2.1]

theorem strStartsWith_clash {i p q : String} {a b : Char} {as bs : List Char}
    (hp : p.data = a :: as) (hq : q.data = b :: bs) (hab : a ≠ b)
    (h1 : strStartsWith i p = true) (h2 : strStartsWith i q = true) : False := by
  unfold strStartsWith at h1 h2
  rw [hp] at h1
  rw [hq] at h2
  cases hd : i.data with
  | nil => rw [hd] at h1; simp [isPrefixList] at h1
  | cons c cs =>
    rw [hd] at h1 h2
    exact hab (isPrefixList_head h1 h2)

theorem accepted_feature_ids {i : String} (hacc : cartIdAccepted i)
    (hpref : strStartsWith i "feature-" = true) :
    i ∈ (["feature-3d-models", "feature-parallax", "feature-image-addition",
          "feature-ndi"] : List String) := by
  rcases hacc with hin | hdm | hdp
  · simp only [PRICE_ids, List.mem_cons, List.not_mem_nil, or_false] at hin
    rcases hin with rfl | rfl | rfl | rfl | rfl | rfl | rfl
    · exact absurd hpref (by decide)
    · exact absurd hpref (by decide)
    · exact absurd hpref (by decide)
    · decide
    · decide
    · decide
    · decide
  · exact (strStartsWith_clash
      (show ("feature-" : String).data = 'f' :: "eature-".data from rfl)
      (show ("dp-mini-" : String).data = 'd' :: "p-mini-".data from rfl)
      (by decide) hpref hdm).elim
  · exact (strStartsWith_clash
      (show ("feature-" : String).data = 'f' :: "eature-".data from rfl)
      (show ("dppro-" : String).data = 'd' :: "ppro-".data from rfl)
      (by decide) hpref hdp).elim

theorem parseFeatures_metadata_subset {cartIds : List String}
    (hcart : ∀ i ∈ cartIds, cartIdAccepted i) :
    ∀ f ∈ parseFeatures (featuresMetadata cartIds), f ∈ knownFeatures := by
  have hfilt : ∀ i ∈ cartIds.filter (fun i => strStartsWith i "feature-"),
      i ∈ (["feature-3d-models", "feature-parallax", "feature-image-addition",
            "feature-ndi"] : List String) := by
    intro i hi
    rw [List.mem_filter] at hi
    exact accepted_feature_ids (hcart i hi.1) hi.2
  unfold parseFeatures featuresMetadata
  cases hfl : cartIds.filter (fun i => strStartsWith i "feature-") with
  | nil => decide
  | cons x xs =>
    rw [hfl] at hfilt
    rw [jsSplit_jsJoin (by simp) ?hc]
    case hc =>
      intro s hs
      have h4 := hfilt s hs
      simp only [List.mem_cons, List.not_mem_nil, or_false] at h4
      rcases h4 with rfl | rfl | rfl | rfl <;> decide
    intro f hf
    rw [List.mem_map] at hf
    obtain ⟨s, hs, rfl⟩ := hf
    rw [List.mem_filter] at hs
    obtain ⟨hs1, _⟩ := hs
    rw [List.mem_map] at hs1
    obtain ⟨t, ht, rfl⟩ := hs1
    have h4 := hfilt t ht
    simp only [List.mem_cons, List.not_mem_nil, or_false] at h4
    rcases h4 with rfl | rfl | rfl | rfl <;> decide

theorem rowRecord_features_wf {header : List String} {line : String}
    {s : String} {d : LicenseData} (h : rowRecord header line = some (s, d)) :
    d.activeFeatures.Nodup ∧ ∀ f ∈ d.activeFeatures, f ∈ knownFeatures := by
  simp only [rowRecord] at h
  by_cases hs : jsTrim (jsToUpper (getCol (jsSplit ',' line)
      (idxLookup header "serial"))) = ""
  · rw [if_pos hs] at h
    cases h
  · rw [if_neg hs] at h
    simp only [Option.some.injEq, Prod.mk.injEq] at h
    obtain ⟨-, h2⟩ := h
    subst h2
    by_cases h1 : jsTrim (getCol (jsSplit ',' line)
        (idxLookup header "feature_3d_models")) = "True" <;>
      by_cases h2 : jsTrim (getCol (jsSplit ',' line)
        (idxLookup header "feature_parallax")) = "True" <;>
      by_cases h3 : jsTrim (getCol (jsSplit ',' line)
        (idxLookup header "feature_image_addition")) = "True" <;>
      by_cases h4 : jsTrim (getCol (jsSplit ',' line)
        (idxLookup header "feature_ndi")) = "True" <;>
      simp [h1, h2, h3, h4] <;> decide

theorem foldl_applyRow_preserves (P : LicenseData → Prop) (header : List String)
    (hrow : ∀ line s d, rowRecord header line = some (s, d) → P d) :
    ∀ (rows : List String) (acc : Ledger),
      (∀ s d, lookupLedger s acc = some d → P d) →
      ∀ s d, lookupLedger s (rows.foldl (applyRow header) acc) = some d → P d := by
  intro rows
  induction rows with
  | nil => exact fun acc hacc => hacc
  | cons r rs ih =>
    intro acc hacc
    rw [List.foldl_cons]
    refine ih _ ?_
    intro s d hl
    unfold applyRow at hl
    cases hr : rowRecord header r with
    | none =>
      rw [hr] at hl
      exact hacc s d hl
    | some p =>
      obtain ⟨k, v⟩ := p
      rw [hr] at hl
      rw [lookup_objInsert] at hl
      by_cases hk : k = s
      · rw [if_pos hk] at hl
        injection hl with he
        subst he
        exact hrow r k v hr
      · rw [if_neg hk] at hl
        exact hacc s d hl

theorem csvToDb_records_wf (csv : String) :
    ∀ s d, lookupLedger s (csvToDb csv) = some d →
      d.activeFeatures.Nodup ∧ ∀ f ∈ d.activeFeatures, f ∈ knownFeatures := by
  unfold csvToDb
  cases hl : (splitLines csv).filter (fun s => s ≠ "") with
  | nil => intro s d h; cases h
  | cons hd rows =>
    exact foldl_applyRow_preserves _ _ (fun line s d h => rowRecord_features_wf h)
      rows [] (fun s d h => by cases h)

/-- C5: in every reachable ledger state the feature list of each
record is duplicate-free with members drawn from the closed feature
set, and merging in features that are already present leaves the
feature list unchanged. -/
theorem c5_feature_set_invariant :
    (∀ db, Reachable db → ∀ s d, lookupLedger s db = some d →
      d.activeFeatures.Nodup ∧ ∀ f ∈ d.activeFeatures, f ∈ knownFeatures) ∧
    (∀ prev purchased, prev.Nodup → (∀ f ∈ purchased, f ∈ prev) →
      mergeFeatures prev purchased = prev) := by
  constructor
  · intro db hr
    induction hr with
    | empty => intro s d h; cases h
    | loaded csv => exact csvToDb_records_wf csv
    | activated db today raw cartIds hcart hdb ih =>
      intro s d h
      simp only [activate] at h
      by_cases hs : jsTrim (jsToUpper raw) = ""
      · rw [if_pos hs] at h
        exact ih s d h
      · rw [if_neg hs] at h
        unfold applyActivation at h
        rw [lookup_objInsert] at h
        by_cases hk : jsTrim (jsToUpper raw) = s
        · rw [if_pos hk] at h
          injection h with he
          subst he
          refine ⟨nodup_mergeFeatures _ _, ?_⟩
          intro f hf
          rw [mem_mergeFeatures] at hf
          rcases hf with hf | hf
          · cases hlp : lookupLedger (jsTrim (jsToUpper raw)) db with
            | none =>
              rw [hlp] at hf
              simp [defaultRecord] at hf
            | some p =>
              rw [hlp] at hf
              simp only [Option.getD_some] at hf
              exact (ih _ p hlp).2 f hf
          · exact parseFeatures_metadata_subset hcart f hf
        · rw [if_neg hk] at h
          exact ih s d h
  · exact fun prev purchased h1 h2 => mergeFeatures_noop h1 h2

/-! ## C1: the codec round trip -/

theorem intercalate_nil_char (c : Char) : [c].intercalate ([] : List (List Char)) = [] := by
  simp [List.intercalate]

theorem intercalate_single_char (c : Char) (x : List Char) :
    [c].intercalate [x] = x := by
  simp [List.intercalate]

theorem intercalate_cons_cons_char (c : Char) (x y : List Char)
    (ys : List (List Char)) :
    [c].intercalate (x :: y :: ys) = x ++ c :: [c].intercalate (y :: ys) := by
  simp [List.intercalate, List.intersperse]

theorem mem_intercalate_char {c x : Char} :
    ∀ {lss : List (List Char)}, x ∈ [c].intercalate lss →
      x = c ∨ ∃ l ∈ lss, x ∈ l := by
  intro lss
  induction lss with
  | nil =>
    rw [intercalate_nil_char]
    intro h
    cases h
  | cons a t ih =>
    cases t with
    | nil =>
      rw [intercalate_single_char]
      intro h
      exact Or.inr ⟨a, List.mem_cons_self a [], h⟩
    | cons b bs =>
      rw [intercalate_cons_cons_char]
      intro h
      rw [List.mem_append] at h
      rcases h with h | h
      · exact Or.inr ⟨a, List.mem_cons_self _ _, h⟩
      · rw [List.mem_cons] at h
        rcases h with rfl | h
        · exact Or.inl rfl
        · rcases ih h with h | ⟨l, hl, hx⟩
          · exact Or.inl h
          · exact Or.inr ⟨l, List.mem_cons_of_mem _ hl, hx⟩

theorem csvEscape_of_plain {s : String} (h : plainChars s) : csvEscape s = s := by
  have hq : needsQuoting s = false := by
    rw [needsQuoting, List.any_eq_false]
    intro c hc
    have h1 := h c hc
    push_neg at h1
    obtain ⟨hnc, hnq, hnn, -⟩ := h1
    simp [hnc, hnq, hnn]
  simp [csvEscape, hq]

theorem rowOf_fields_plain {s : String} {d : LicenseData}
    (hs : wfSerial s) (hd : wfRecord d) : ∀ f ∈ rowOf s d, plainChars f := by
  obtain ⟨hs1, hs2, hs3, hs4⟩ := hs
  obtain ⟨⟨ht1, ht2, ht3⟩, hda, hde, hfe⟩ := hd
  intro f hf
  simp only [rowOf, List.mem_cons, List.not_mem_nil, or_false] at hf
  rcases hf with rfl | rfl | rfl | rfl | rfl | rfl | rfl | rfl
  · exact hs4
  · rw [jsOr, if_neg ht1]
    exact ht3
  · cases hv : d.activation_date with
    | none => decide
    | some v =>
      rw [hv] at hda
      obtain ⟨-, -, h3⟩ := hda
      exact h3
  · cases hv : d.expires with
    | none => decide
    | some v =>
      rw [hv] at hde
      obtain ⟨-, -, h3⟩ := hde
      exact h3
  · split <;> decide
  · split <;> decide
  · split <;> decide
  · split <;> decide

theorem lineOf_eq_plain {p : String × LicenseData}
    (hs : wfSerial p.1) (hd : wfRecord p.2) :
    lineOf p = jsJoin ',' (rowOf p.1 p.2) := by
  unfold lineOf
  have hesc : ∀ f ∈ rowOf p.1 p.2, csvEscape f = id f :=
    fun f hf => csvEscape_of_plain (rowOf_fields_plain hs hd f hf)
  rw [List.map_congr_left hesc, List.map_id]

theorem lineOf_chars {p : String × LicenseData}
    (hs : wfSerial p.1) (hd : wfRecord p.2) :
    ∀ x ∈ (lineOf p).data, ¬(x = '\n' ∨ x = '\r') := by
  rw [lineOf_eq_plain hs hd]
  intro x hx hcon
  have hx2 : x = ',' ∨ ∃ l ∈ (rowOf p.1 p.2).map String.data, x ∈ l :=
    mem_intercalate_char hx
  rcases hx2 with rfl | ⟨l, hl, hxl⟩
  · rcases hcon with h | h <;> exact absurd h (by decide)
  · rw [List.mem_map] at hl
    obtain ⟨f, hf, rfl⟩ := hl
    have hpl := rowOf_fields_plain hs hd f hf x hxl
    rcases hcon with rfl | rfl
    · exact hpl (Or.inr (Or.inr (Or.inl rfl)))
    · exact hpl (Or.inr (Or.inr (Or.inr rfl)))

theorem lineOf_ne_empty {p : String × LicenseData}
    (hs : wfSerial p.1) (hd : wfRecord p.2) : lineOf p ≠ "" := by
  rw [lineOf_eq_plain hs hd]
  intro he
  have hdata : [','].intercalate ((rowOf p.1 p.2).map String.data) =
      ([] : List Char) := congrArg String.data he
  rw [rowOf] at hdata
  simp only [List.map_cons] at hdata
  rw [intercalate_cons_cons_char] at hdata
  simp at hdata

theorem stripCR_of_no_cr {s : String} (h : '\r' ∉ s.data) : stripCR s = s := by
  rw [stripCR]
  cases hl : s.data.getLast? with
  | none => rfl
  | some c =>
    have hc : ¬c = '\r' := by
      intro hc
      rw [hc] at hl
      exact h (List.mem_of_mem_getLast? hl)
    show (if c = '\r' then (⟨s.data.dropLast⟩ : String) else s) = s
    rw [if_neg hc]

theorem splitLinesAux_id :
    ∀ {ls : List String}, (∀ l ∈ ls, stripCR l = l) → splitLinesAux ls = ls
  | [], _ => rfl
  | [_], _ => rfl
  | x :: y :: ys, h => by
    rw [splitLinesAux, h x (List.mem_cons_self _ _),
      splitLinesAux_id (fun l hl => h l (List.mem_cons_of_mem _ hl))]

theorem foldl_applyRow_entries (header : List String) :
    ∀ (L : Ledger) (acc : Ledger),
      (∀ p ∈ L, rowRecord header (lineOf p) = some p) →
      (∀ p ∈ L, p.1 ∉ ledgerKeys acc) →
      (ledgerKeys L).Nodup →
      (L.map lineOf).foldl (applyRow header) acc = acc ++ L := by
  intro L
  induction L with
  | nil => intro acc _ _ _; simp
  | cons p rest ih =>
    obtain ⟨ps, pd⟩ := p
    intro acc hrow hdisj hnd
    rw [List.map_cons, List.foldl_cons]
    have h1 : applyRow header acc (lineOf (ps, pd)) = acc ++ [(ps, pd)] := by
      unfold applyRow
      rw [hrow (ps, pd) (List.mem_cons_self _ _)]
      exact objInsert_append (hdisj (ps, pd) (List.mem_cons_self _ _))
    rw [h1, ih (acc ++ [(ps, pd)]) ?hrow2 ?hdisj2 ?hnd2]
    · simp
    case hrow2 => exact fun q hq => hrow q (List.mem_cons_of_mem _ hq)
    case hdisj2 =>
      intro q hq hmem
      have hkeys : ledgerKeys (acc ++ [(ps, pd)]) = ledgerKeys acc ++ [ps] := by
        simp [ledgerKeys]
      rw [hkeys, List.mem_append] at hmem
      rcases hmem with hm | hm
      · exact hdisj q (List.mem_cons_of_mem _ hq) hm
      · simp only [List.mem_singleton] at hm
        rw [ledgerKeys, List.map_cons, List.nodup_cons] at hnd
        exact hnd.1 (List.mem_map.mpr ⟨q, hq, hm⟩)
    case hnd2 =>
      rw [ledgerKeys, List.map_cons, List.nodup_cons] at hnd
      exact hnd.2

theorem rowRecord_lineOf {s : String} {d : LicenseData}
    (hs : wfSerial s) (hd : wfRecord d) :
    rowRecord CSV_HEADERS (lineOf (s, d)) = some (s, d) := by
  obtain ⟨hs1, hs2, hs3, hs4⟩ := hs
  obtain ⟨⟨ht1, ht2, ht3⟩, hda, hde, hfe⟩ := hd
  have hcols : jsSplit ',' (lineOf (s, d)) = rowOf s d := by
    rw [lineOf_eq_plain ⟨hs1, hs2, hs3, hs4⟩ ⟨⟨ht1, ht2, ht3⟩, hda, hde, hfe⟩]
    apply jsSplit_jsJoin
    · simp [rowOf]
    · intro f hf hc
      exact rowOf_fields_plain ⟨hs1, hs2, hs3, hs4⟩ ⟨⟨ht1, ht2, ht3⟩, hda, hde, hfe⟩
        f hf ',' hc (Or.inl rfl)
  have i0 : idxLookup CSV_HEADERS "serial" = some 0 := by decide
  have i1 : idxLookup CSV_HEADERS "status" = some 1 := by decide
  have i2 : idxLookup CSV_HEADERS "activation_date" = some 2 := by decide
  have i3 : idxLookup CSV_HEADERS "expiration_date" = some 3 := by decide
  have i4 : idxLookup CSV_HEADERS "feature_3d_models" = some 4 := by decide
  have i5 : idxLookup CSV_HEADERS "feature_parallax" = some 5 := by decide
  have i6 : idxLookup CSV_HEADERS "feature_image_addition" = some 6 := by decide
  have i7 : idxLookup CSV_HEADERS "feature_ndi" = some 7 := by decide
  have g0 : getCol (rowOf s d) (some 0) = s := rfl
  have g1 : getCol (rowOf s d) (some 1) = jsOr d.status "not-active" := rfl
  have g2 : getCol (rowOf s d) (some 2) = d.activation_date.getD "" := rfl
  have g3 : getCol (rowOf s d) (some 3) = d.expires.getD "" := rfl
  have g4 : getCol (rowOf s d) (some 4) =
      (if d.activeFeatures.contains "3d-models" then "True" else "False") := rfl
  have g5 : getCol (rowOf s d) (some 5) =
      (if d.activeFeatures.contains "parallax" then "True" else "False") := rfl
  have g6 : getCol (rowOf s d) (some 6) =
      (if d.activeFeatures.contains "image-addition" then "True" else "False") := rfl
  have g7 : getCol (rowOf s d) (some 7) =
      (if d.activeFeatures.contains "ndi" then "True" else "False") := rfl
  have hser : jsTrim (jsToUpper s) = s := by rw [hs2, hs3]
  have hstat : statusOf (jsOr d.status "not-active") = d.status := by
    simp [statusOf, jsOr, ht1, ht2]
  have hdate : ∀ (o : Option String), wfDate o → dateOf (o.getD "") = o := by
    intro o ho
    cases o with
    | none => decide
    | some v =>
      obtain ⟨hv1, hv2, hv3⟩ := ho
      simp [dateOf, hv2, hv1]
  have eT : jsTrim "True" = "True" := by decide
  have eF : jsTrim "False" = "False" := by decide
  have hfeatures :
      ((if jsTrim (if d.activeFeatures.contains "3d-models" then "True" else "False") =
          "True" then ["3d-models"] else []) ++
        (if jsTrim (if d.activeFeatures.contains "parallax" then "True" else "False") =
          "True" then ["parallax"] else []) ++
        (if jsTrim (if d.activeFeatures.contains "image-addition" then "True"
            else "False") = "True" then ["image-addition"] else []) ++
        (if jsTrim (if d.activeFeatures.contains "ndi" then "True" else "False") =
          "True" then ["ndi"] else [])) = d.activeFeatures := by
    have hgoal :
        ((if jsTrim (if d.activeFeatures.contains "3d-models" then "True" else "False") =
            "True" then ["3d-models"] else []) ++
          (if jsTrim (if d.activeFeatures.contains "parallax" then "True" else "False") =
            "True" then ["parallax"] else []) ++
          (if jsTrim (if d.activeFeatures.contains "image-addition" then "True"
              else "False") = "True" then ["image-addition"] else []) ++
          (if jsTrim (if d.activeFeatures.contains "ndi" then "True" else "False") =
            "True" then ["ndi"] else [])) =
          knownFeatures.filter (fun f => d.activeFeatures.contains f) := by
      rw [knownFeatures]
      by_cases m1 : "3d-models" ∈ d.activeFeatures <;>
        by_cases m2 : "parallax" ∈ d.activeFeatures <;>
        by_cases m3 : "image-addition" ∈ d.activeFeatures <;>
        by_cases m4 : "ndi" ∈ d.activeFeatures <;>
        simp [List.filter_cons, m1, m2, m3, m4, eT, eF]
    exact hgoal.trans hfe.symm
  simp only [rowRecord, hcols, i0, i1, i2, i3, i4, i5, i6, i7, g0, g1, g2, g3, g4,
    g5, g6, g7, hser, if_neg hs1, hstat, hdate d.activation_date hda,
    hdate d.expires hde, hfeatures]

/-- C1 as written is refuted by a ledger whose serial holds a comma
and no newline: the encoder quotes the field but the decoder splits
naively on commas and never removes the quoting, so the decoded ledger
differs from the original. -/
theorem c1_roundtrip_counterexample :
    noNewlineLedger [("A,B", defaultRecord)] ∧
    csvToDb (dbToCsv [("A,B", defaultRecord)]) ≠ [("A,B", defaultRecord)] := by
  exact ⟨by decide, by decide⟩

/-- C1 (amended): decoding the encoding returns the ledger unchanged
for every ledger with distinct keys whose serials are canonical
(nonempty, uppercase- and trim-fixed) and, like every other stored
field, free of commas, double quotes, newlines and carriage returns,
whose statuses are nonempty and trim-fixed, whose dates are absent or
nonempty and trim-fixed, and whose feature lists are the
canonical-order selection of the known features they contain. -/
theorem c1_roundtrip_amended (db : Ledger) (h : wfLedger db) :
    csvToDb (dbToCsv db) = db := by
  obtain ⟨hnd, hwf⟩ := h
  have hlines : splitLines (dbToCsv db) =
      jsJoin ',' CSV_HEADERS :: db.map lineOf := by
    unfold splitLines dbToCsv
    rw [jsSplit_jsJoin ?hne ?hnl]
    · apply splitLinesAux_id
      intro l hl
      rcases List.mem_cons.mp hl with rfl | hl2
      · decide
      · rw [List.mem_map] at hl2
        obtain ⟨p, hp, rfl⟩ := hl2
        apply stripCR_of_no_cr
        intro hc
        exact lineOf_chars (hwf p hp).1 (hwf p hp).2 '\r' hc (Or.inr rfl)
    case hne => simp
    case hnl =>
      intro l hl
      rcases List.mem_cons.mp hl with rfl | hl2
      · decide
      · rw [List.mem_map] at hl2
        obtain ⟨p, hp, rfl⟩ := hl2
        intro hc
        exact lineOf_chars (hwf p hp).1 (hwf p hp).2 '\n' hc (Or.inl rfl)
  have hfilter : (splitLines (dbToCsv db)).filter (fun s => s ≠ "") =
      jsJoin ',' CSV_HEADERS :: db.map lineOf := by
    rw [hlines, List.filter_eq_self.mpr]
    intro l hl
    rcases List.mem_cons.mp hl with rfl | hl2
    · decide
    · rw [List.mem_map] at hl2
      obtain ⟨p, hp, rfl⟩ := hl2
      exact decide_eq_true (lineOf_ne_empty (hwf p hp).1 (hwf p hp).2)
  unfold csvToDb
  simp only [hfilter]
  have hheader : jsSplit ',' (jsJoin ',' CSV_HEADERS) = CSV_HEADERS := by decide
  rw [hheader]
  have hfold := foldl_applyRow_entries CSV_HEADERS db []
    (fun p hp => rowRecord_lineOf (hwf p hp).1 (hwf p hp).2)
    (fun p _ hm => List.not_mem_nil _ hm) hnd
  simpa using hfold

theorem c1_roundtrip_amended_witness :
    wfLedger [("XZ77", ⟨"valid", some "2025-01-02", some "2026-01-02",
        ["3d-models", "ndi"]⟩)] ∧
    csvToDb (dbToCsv [("XZ77", ⟨"valid", some "2025-01-02", some "2026-01-02",
        ["3d-models", "ndi"]⟩)]) =
      [("XZ77", ⟨"valid", some "2025-01-02", some "2026-01-02",
        ["3d-models", "ndi"]⟩)] :=
  ⟨by decide, c1_roundtrip_amended _ (by decide)⟩

theorem c5_feature_set_invariant_witness :
    (LicenseData.mk "not-active" none none ["ndi"]).activeFeatures.Nodup ∧
    ∀ f ∈ (LicenseData.mk "not-active" none none ["ndi"]).activeFeatures,
      f ∈ knownFeatures :=
  c5_feature_set_invariant.1 (csvToDb "serial,feature_ndi\nAB,True")
    (Reachable.loaded "serial,feature_ndi\nAB,True") "AB"
    (LicenseData.mk "not-active" none none ["ndi"]) (by decide)

end DpBiotech
